import Mathlib

/-!
Verification of the aatuh/email library against its specification.

The Go sources are shallowly embedded: byte strings become `List Nat`
(one entry per byte), ASCII text becomes `String`/`List Char`, Go maps
`map[string]string` become association lists with map semantics, and
everything the code obtains from the clock or a random source
(multipart boundaries, Message-ID bytes, timestamps, jitter draws) is
an explicit parameter that the theorems quantify over.  External
collaborators (stdlib crypto primitives, `net/mail` address rendering,
the MIME word encoder) appear as function parameters, modelled at
their interface.
-/

namespace EmailVerify

/-- Byte view of an ASCII string, one `Nat` per character. -/
def strBytes (s : String) : List Nat := s.data.map Char.toNat

/-- Substring test: does `sub` occur inside `s`?  Models Go
`strings.Contains(s, sub)`. -/
def containsB (s sub : List Char) : Bool := decide (sub <:+: s)

/-- Transient-marker substrings checked on the lowercased error text,
in source order (`smtp/smtp.go`, `isTransient`). -/
def transientMarkers : List String :=
  ["timeout", "temporarily", "try again", "connection reset", "broken pipe"]

/-- Model of `isTransient` (`smtp/smtp.go`).  The
`errors.Is(err, context.DeadlineExceeded)` test is the Boolean flag
`deadlineExceeded`; the error text is `msg`.  Go `strings.ToLower` is
modelled per character (all markers are ASCII). -/
def isTransient (deadlineExceeded : Bool) (msg : List Char) : Bool :=
  if deadlineExceeded then true
  else if containsB msg " 4".toList || containsB msg "4xx".toList then true
  else
    let low := msg.map Char.toLower
    (transientMarkers.map String.toList).any fun m => containsB low m

/-- State of `expBackoff` (`options.go`).  Durations are modelled as
nonnegative nanosecond counts, and `float64(b.base) * pow` as exact
natural-number arithmetic (the float product is exact whenever it
fits the mantissa). -/
structure ExpBackoff where
  attempts : Nat
  base : Nat
  max : Nat
  fullJitter : Bool

/-- The capped exponential delay of `(*expBackoff).Next`
(`options.go`): `base * 2^(i-1)`, set to `max` when that is positive
and exceeded.  The jitter draw of `r.Int63n(k)` — uniform on `[0, k)`
— is modelled in `next` as `j % k` for a caller-supplied `j`. -/
def expDelay (b : ExpBackoff) (i : Nat) : Nat :=
  if 0 < b.max ∧ b.max < b.base * 2 ^ (i - 1) then b.max else b.base * 2 ^ (i - 1)

/-- Continuation of `Next` (`options.go`): exhaustion and first-try
checks, then the capped exponential delay with jitter applied. -/
def ExpBackoff.next (b : ExpBackoff) (i : Nat) (j : Nat) : Nat × Bool :=
  if b.attempts ≤ i then (0, false)
  else if i = 0 then (0, true)
  else if b.fullJitter then (j % (expDelay b i + 1), true)
  else (expDelay b i / 2 + j % (expDelay b i / 2 + 1), true)

/-- Model of the `ExponentialBackoff` constructor (`options.go`):
clamps a non-positive attempt budget to 1. -/
def ExponentialBackoff (attempts : Int) (base maxDelay : Nat) (fullJitter : Bool) :
    ExpBackoff :=
  { attempts := (if attempts ≤ 0 then 1 else attempts).toNat
    base := base
    max := maxDelay
    fullJitter := fullJitter }

/-- State of `TokenBucket` (`templates.go`).  The float64 token count
is a rational here; the `last` wall-clock field is dropped — elapsed
time between checks enters through explicit `dt` arguments. -/
structure TokenBucket where
  rate : ℚ
  burst : Int
  tokens : ℚ

/-- `NewTokenBucket` (`templates.go`): clamp non-positive rate to 1
token/second and non-positive burst to 1; start full. -/
def NewTokenBucket (rate : ℚ) (burst : Int) : TokenBucket :=
  { rate := if rate ≤ 0 then 1 else rate
    burst := if burst ≤ 0 then 1 else burst
    tokens := ((if burst ≤ 0 then 1 else burst : Int) : ℚ) }

/-- One refill step of `TokenBucket.Wait`: add `dt` seconds worth of
tokens, clamped at the burst capacity. -/
def TokenBucket.refill (tb : TokenBucket) (dt : ℚ) : TokenBucket :=
  let t := tb.tokens + dt * tb.rate
  { tb with tokens := if (tb.burst : ℚ) < t then (tb.burst : ℚ) else t }

/-- The check-and-decrement step of `TokenBucket.Wait`: if at least
one token is available, consume it. -/
def TokenBucket.take (tb : TokenBucket) : Option TokenBucket :=
  if 1 ≤ tb.tokens then some { tb with tokens := tb.tokens - 1 } else none

/-- A complete `Wait` call: one refill-and-check per loop iteration,
driven by the elapsed time observed at each check; `some` is the
bucket state at the moment a token was obtained, `none` means the
supplied trace ended first (the real loop sleeps and re-checks
forever). -/
def TokenBucket.waitRun (tb : TokenBucket) : List ℚ → Option TokenBucket
  | [] => none
  | dt :: rest =>
    let tb1 := tb.refill dt
    match tb1.take with
    | some tb2 => some tb2
    | none => tb1.waitRun rest

/-- Invariant of a live token bucket: positive rate, burst at least
one, token count between 0 and the burst capacity. -/
def TBInv (tb : TokenBucket) : Prop :=
  0 < tb.rate ∧ 1 ≤ tb.burst ∧ 0 ≤ tb.tokens ∧ tb.tokens ≤ (tb.burst : ℚ)

/-- An idle pool entry (`conn_pool.go`): opaque connection handle
(modelled as a `Nat` id) plus the time it was returned. -/
structure PoolItem where
  conn : Nat
  ts : Nat
deriving DecidableEq

/-- Pool state (`conn_pool.go`).  The idle list keeps the
most-recently-returned entry first (the Go code pushes to and pops
from the back of a `container/list`; only the order is mirrored).
The caller-supplied `New` and `IsHealthy` functions are explicit
arguments of `get`; for `Close` only its presence matters to the
pool, recorded in `hasClose`. -/
structure ConnPool where
  maxIdle : Nat
  idleTTL : Nat
  hasClose : Bool
  idle : List PoolItem
  inUse : Int

/-- Health predicate application: a nil `IsHealthy` accepts
everything. -/
def healthyOk (healthy : Option (Nat → Bool)) (c : Nat) : Bool :=
  match healthy with
  | none => true
  | some f => f c

/-- The idle-scan loop of `ConnPool.Get`: pop entries most recent
first, return the first one that is fresh (`time.Since(ts) ≤ TTL`)
and healthy; entries scanned past are closed when a close function is
configured.  Returns the found connection, the closed connections,
and the remaining idle entries. -/
def popIdle (ttl now : Nat) (healthy : Option (Nat → Bool)) (hasClose : Bool) :
    List PoolItem → Option Nat × List Nat × List PoolItem
  | [] => (none, [], [])
  | it :: rest =>
    if now - it.ts ≤ ttl ∧ healthyOk healthy it.conn then (some it.conn, [], rest)
    else
      let r := popIdle ttl now healthy hasClose rest
      (r.1, (if hasClose then [it.conn] else []) ++ r.2.1, r.2.2)

/-- Result of `ConnPool.Get`: the acquired connection (if any), the
error (if any), the connections closed while scanning, and the pool
state afterwards. -/
structure GetOut where
  conn : Option Nat
  err : Option String
  closed : List Nat
  pool : ConnPool

/-- `ConnPool.Get` (`conn_pool.go`).  `newFn` is the caller-supplied
create function, modelled by the outcome it would produce when
invoked (`none` = nil function). -/
def ConnPool.get (p : ConnPool) (now : Nat) (healthy : Option (Nat → Bool))
    (newFn : Option (Except String Nat)) : GetOut :=
  let r := popIdle p.idleTTL now healthy p.hasClose p.idle
  match r.1 with
  | some c =>
    { conn := some c, err := none, closed := r.2.1
      pool := { p with idle := r.2.2, inUse := p.inUse + 1 } }
  | none =>
    match newFn with
    | none => { conn := none, err := none, closed := r.2.1, pool := { p with idle := r.2.2 } }
    | some (.error e) =>
      { conn := none, err := some e, closed := r.2.1, pool := { p with idle := r.2.2 } }
    | some (.ok c) =>
      { conn := some c, err := none, closed := r.2.1
        pool := { p with idle := r.2.2, inUse := p.inUse + 1 } }

/-- `ConnPool.Put` (`conn_pool.go`): nil connections are ignored; at
idle capacity the connection is closed (when a close function is
configured) instead of cached; otherwise it is stored with a fresh
timestamp at the most-recent end.  Returns the pool state and the
list of connections closed. -/
def ConnPool.put (p : ConnPool) (conn : Option Nat) (now : Nat) : ConnPool × List Nat :=
  match conn with
  | none => (p, [])
  | some c =>
    let p1 := { p with inUse := p.inUse - 1 }
    if p1.maxIdle ≤ p1.idle.length then (p1, if p1.hasClose then [c] else [])
    else ({ p1 with idle := ⟨c, now⟩ :: p1.idle }, [])

/-- Hex digit of the quoted-printable encoder (the byte of the
character `"0123456789ABCDEF"[n]`). -/
def qpHexDigit (n : Nat) : Nat := if n < 10 then 48 + n else 55 + n

/-- Core loop of `writeQuotedPrintable` (`internal/mime_build.go`),
carrying the output column; CR is dropped, LF becomes a hard CRLF,
`=`, controls and high bytes become `=XX`, a soft break `=`+CRLF is
inserted when the escaped unit would pass column 75, and a final CRLF
closes the stream. -/
def writeQPAux : List Nat → Nat → List Nat
  | [], _ => [13, 10]
  | c :: rest, col =>
    if c = 13 then writeQPAux rest col
    else if c = 10 then 13 :: 10 :: writeQPAux rest 0
    else
      let out := if c = 61 ∨ c < 32 ∨ 126 < c then
          [61, qpHexDigit (c / 16), qpHexDigit (c % 16)]
        else [c]
      if 75 < col + out.length then 61 :: 13 :: 10 :: (out ++ writeQPAux rest out.length)
      else out ++ writeQPAux rest (col + out.length)

/-- `writeQuotedPrintable`: the encoding starts at column zero. -/
def writeQuotedPrintable (b : List Nat) : List Nat := writeQPAux b 0

/-- Value of an ASCII hex digit (digit or uppercase letter), if it is
one. -/
def hexVal (c : Nat) : Option Nat :=
  if 48 ≤ c ∧ c ≤ 57 then some (c - 48)
  else if 65 ≤ c ∧ c ≤ 70 then some (c - 55)
  else none

/-- Standard quoted-printable decoding (RFC 2045), the operation the
spec appeals to for "after quoted-printable decoding": soft breaks
`=`+CRLF disappear, `=XX` escapes decode to their byte, everything
else passes through. -/
def qpDecode : List Nat → List Nat
  | 61 :: c1 :: c2 :: rest =>
    if c1 = 13 ∧ c2 = 10 then qpDecode rest
    else
      match hexVal c1, hexVal c2 with
      | some a, some b => (16 * a + b) :: qpDecode rest
      | _, _ => 61 :: qpDecode (c1 :: c2 :: rest)
  | c :: rest => c :: qpDecode rest
  | [] => []
termination_by l => l.length
decreasing_by
  all_goals simp only [List.length_cons]
  all_goals omega

/-- Line-ending canonicalization performed by the encoder, used to
state the amended round-trip: CR dropped, LF expanded to CRLF. -/
def qpCanonCore : List Nat → List Nat
  | [] => []
  | c :: rest =>
    if c = 13 then qpCanonCore rest
    else if c = 10 then 13 :: 10 :: qpCanonCore rest
    else c :: qpCanonCore rest

/-- Character code of the standard base64 alphabet
(`encoding/base64.StdEncoding`). -/
def b64Char (n : Nat) : Nat :=
  if n < 26 then 65 + n
  else if n < 52 then 97 + (n - 26)
  else if n < 62 then 48 + (n - 52)
  else if n = 62 then 43 else 47

/-- Standard base64 with `=` padding (`encoding/base64.StdEncoding`). -/
def base64Encode : List Nat → List Nat
  | a :: b :: c :: rest =>
    let w := a % 256 * 65536 + b % 256 * 256 + c % 256
    b64Char (w / 262144) :: b64Char (w / 4096 % 64) :: b64Char (w / 64 % 64) ::
      b64Char (w % 64) :: base64Encode rest
  | [a, b] =>
    let w := a % 256 * 65536 + b % 256 * 256
    [b64Char (w / 262144), b64Char (w / 4096 % 64), b64Char (w / 64 % 64), 61]
  | [a] =>
    let w := a % 256 * 65536
    [b64Char (w / 262144), b64Char (w / 4096 % 64), 61, 61]
  | [] => []

/-- String form of a base64 encoding. -/
def b64String (bs : List Nat) : String := String.mk ((base64Encode bs).map Char.ofNat)

/-- `crlfWriter` (`internal/mime_build.go`): insert CRLF after every
`cols` bytes; a final full line also gets its CRLF, a final partial
line does not. -/
def crlfWrap (cols : Nat) (l : List Nat) : List Nat :=
  if _h : cols = 0 ∨ l.length < cols then l
  else l.take cols ++ 13 :: 10 :: crlfWrap cols (l.drop cols)
termination_by l.length
decreasing_by
  push_neg at _h
  simp only [List.length_drop]
  omega

/-- types.Address (`types/types.go`). -/
structure Address where
  Name : String
  Mail : String
deriving DecidableEq

/-- types.Attachment (`types/types.go`): the `io.Reader` is modelled
by the byte content it yields when consumed once during build. -/
structure Attachment where
  Filename : String
  ContentType : String
  ContentID : String
  content : List Nat
deriving DecidableEq

/-- Header maps: Go `map[string]string` as an association list with
at most one live entry per key.  Iteration order of the Go map is
random; no claim depends on it, so only lookup is given semantics. -/
abbrev HeaderMap := List (String × String)

/-- types.Message (`types/types.go`). -/
structure Message where
  From : Address
  To : List Address
  Cc : List Address
  Bcc : List Address
  Subject : String
  Plain : List Nat
  HTML : List Nat
  Attach : List Attachment
  Headers : HeaderMap
  TrackingID : String
deriving DecidableEq

/-- `Message.Validate` (`types/types.go`). -/
def Message.Validate (m : Message) : Option String :=
  if m.From.Mail = "" then some "missing From"
  else if m.To = [] ∧ m.Cc = [] ∧ m.Bcc = [] then some "no recipients"
  else if m.Plain = [] ∧ m.HTML = [] ∧ m.Attach = [] then some "no body or attachments"
  else none

/-- `Message.CloneHeaders` (`types/types.go`): the copy holds the
same entries; that it is a fresh map is what the heap model below
makes visible. -/
def Message.CloneHeaders (m : Message) : HeaderMap := m.Headers

/-- Go map assignment `h[k] = v`: replace the entry for `k`, or
append one. -/
def mapSet (m : HeaderMap) (k v : String) : HeaderMap :=
  match m with
  | [] => [(k, v)]
  | p :: rest => if p.1 = k then (k, v) :: rest else p :: mapSet rest k v

/-- `setHeader` (`internal/mime_build.go`): skip empty values. -/
def setOp (k v : String) : List (String × String) := if v = "" then [] else [(k, v)]

/-- Join with a separator between elements, as the Go loops do
(`strings.Join`, and the `if i > 0` writes in the DKIM tag loop). -/
def joinSep (sep : String) : List String → String
  | [] => ""
  | [x] => x
  | x :: y :: rest => x ++ sep ++ joinSep sep (y :: rest)

/-- `sanitizeHeader`: strip CR and LF. -/
def sanitizeHeader (s : String) : String :=
  String.mk (s.data.filter fun c => c != '\r' && c != '\n')

/-- `joinAddrs`, given the `net/mail` rendering of one address. -/
def joinAddrs (addrString : Address → String) (xs : List Address) : String :=
  joinSep ", " (xs.map addrString)

/-- Lowercase hex digit (for Go `%x`). -/
def hexDigitL (n : Nat) : Char := Char.ofNat (if n < 10 then 48 + n else 87 + n)

/-- Recursion worker for Go `%x`: `fuel` only bounds the recursion
depth (`fuel = n` always suffices since `n / 16 < n`). -/
def hexNatAux : Nat → Nat → List Char
  | 0, n => [hexDigitL (n % 16)]
  | fuel + 1, n =>
    if n < 16 then [hexDigitL n]
    else hexNatAux fuel (n / 16) ++ [hexDigitL (n % 16)]

/-- Go `%x` of a nonnegative integer: minimal lowercase hex digits,
"0" for zero. -/
def hexNatList (n : Nat) : List Char := hexNatAux n n

/-- Go `%x` of a byte slice: two lowercase hex digits per byte. -/
def hexBytes (bs : List Nat) : List Char :=
  bs.flatMap fun b => [hexDigitL (b / 16), hexDigitL (b % 16)]

/-- Everything after the last occurrence of `c`, if any (models
`strings.LastIndex` plus the suffix slice). -/
def afterLast (c : Char) : List Char → Option (List Char)
  | [] => none
  | x :: rest =>
    match afterLast c rest with
    | some t => some t
    | none => if x = c then some rest else none

/-- Host part of a Message-ID: the sender mailbox after its last `@`,
default "localhost" (`strings.LastIndex` in `genMessageID`). -/
def hostOf (fromMail : String) : String :=
  match afterLast '@' fromMail.data with
  | some t => String.mk t
  | none => "localhost"

/-- `genMessageID` (`internal/mime_build.go`): `<%x%x@host>` from the
nanosecond timestamp and the 12 random bytes. -/
def genMessageID (fromMail : String) (randB : List Nat) (nowNanos : Nat) : String :=
  "<" ++ String.mk (hexNatList nowNanos) ++ String.mk (hexBytes randB)
    ++ "@" ++ hostOf fromMail ++ ">"

/-- Byte-wise string comparison, as `sort.Strings` compares (the
strings involved are ASCII). -/
def lexLe : List Char → List Char → Bool
  | [], _ => true
  | _ :: _, [] => false
  | a :: as, b :: bs =>
    if a.toNat < b.toNat then true
    else if b.toNat < a.toNat then false
    else lexLe as bs

/-- String order used by `sort.Strings`. -/
def strLe (a b : String) : Bool := lexLe a.data b.data

/-- Insertion step of a stable insertion sort on strings. -/
def insertSortedStr (x : String) : List String → List String
  | [] => [x]
  | y :: ys => if strLe x y then x :: y :: ys else y :: insertSortedStr x ys

/-- Model of `sort.Strings`. -/
def sortStrings (l : List String) : List String := l.foldr insertSortedStr []

/-- Boolean check that a list of strings is sorted under `strLe`
(used to state the sortedness of the DKIM tag names). -/
def strChainSorted : List String → Bool
  | [] => true
  | [_] => true
  | x :: y :: rest => strLe x y && strChainSorted (y :: rest)

/-- Insertion step for key-sorting MIME part headers. -/
def insertSortedPair (x : String × String) :
    List (String × String) → List (String × String)
  | [] => [x]
  | y :: ys => if strLe x.1 y.1 then x :: y :: ys else y :: insertSortedPair x ys

/-- Sort MIME part headers by key, as `multipart.Writer.CreatePart`
does before writing them. -/
def sortPairs (l : List (String × String)) : List (String × String) :=
  l.foldr insertSortedPair []

/-- One MIME part: its header fields (in insertion order) and its
already-encoded content bytes. -/
structure PartSpec where
  headers : List (String × String)
  content : List Nat
deriving DecidableEq

/-- Header block of a part, one `Key: Value` CRLF line per field. -/
def headerBlock : List (String × String) → List Nat
  | [] => []
  | (k, v) :: rest => strBytes (k ++ ": " ++ v) ++ 13 :: 10 :: headerBlock rest

/-- One part as `multipart.Writer.CreatePart` emits it: the dashed
boundary line (preceded by CRLF except for the first part), the
key-sorted header block, a blank line, then the content. -/
def serializePart (boundary : String) (first : Bool) (p : PartSpec) : List Nat :=
  (if first then [] else [13, 10]) ++ strBytes ("--" ++ boundary) ++ 13 :: 10 ::
    (headerBlock (sortPairs p.headers) ++ 13 :: 10 :: p.content)

/-- All parts of a multipart body in order. -/
def serializeParts (boundary : String) : Bool → List PartSpec → List Nat
  | _, [] => []
  | first, p :: rest => serializePart boundary first p ++ serializeParts boundary false rest

/-- A whole multipart body: the parts, then the closing
`--boundary--` line as `multipart.Writer.Close` emits it. -/
def serializeMulti (boundary : String) (ps : List PartSpec) : List Nat :=
  serializeParts boundary true ps ++ 13 :: 10 :: strBytes ("--" ++ boundary ++ "--") ++ [13, 10]

/-- `writeTextPart` (`internal/mime_build.go`). -/
def textPartSpec (body : List Nat) : PartSpec :=
  { headers := [("Content-Type", "text/plain; charset=\"UTF-8\""),
                ("Content-Transfer-Encoding", "quoted-printable")]
    content := writeQuotedPrintable body }

/-- `writeHTMLPart` (`internal/mime_build.go`). -/
def htmlPartSpec (body : List Nat) : PartSpec :=
  { headers := [("Content-Type", "text/html; charset=\"UTF-8\""),
                ("Content-Transfer-Encoding", "quoted-printable")]
    content := writeQuotedPrintable body }

/-- `writeAttachment` (`internal/mime_build.go`); `qenc` models
`mime.QEncoding.Encode("UTF-8", ·)` applied to the filename. -/
def writeAttachmentSpec (qenc : String → String) (a : Attachment) : PartSpec :=
  let ct := if a.ContentType = "" then "application/octet-stream" else a.ContentType
  { headers :=
      (if a.ContentID ≠ "" then
        [("Content-Disposition", "inline; filename=\"" ++ qenc a.Filename ++ "\""),
         ("Content-ID", "<" ++ a.ContentID ++ ">")]
      else
        [("Content-Disposition", "attachment; filename=\"" ++ qenc a.Filename ++ "\"")])
      ++ [("Content-Type", ct), ("Content-Transfer-Encoding", "base64")]
    content := crlfWrap 76 (base64Encode a.content) }

/-- The body `BuildMIME` assembles into `bodyBuf`, kept structurally:
a single encoded text body, or a multipart body. -/
inductive BodyStruct where
  | singlePart (content : List Nat)
  | multiPart (boundary : String) (parts : List PartSpec)
deriving DecidableEq

/-- Byte contents of `bodyBuf`. -/
def BodyStruct.bytes : BodyStruct → List Nat
  | .singlePart c => c
  | .multiPart b ps => serializeMulti b ps

/-- Oracle inputs of one build: the values the Go code obtains from
the clock, the RNG and external formatters.  Theorems quantify over
them. -/
structure BuildEnv where
  addrString : Address → String
  qenc : String → String
  dateStr : String
  nowNanos : Nat
  randB : List Nat
  mixedBoundary : String
  altBoundary : String

/-- The nested `multipart/alternative` part created inside the
`multipart/mixed` case when a plain and/or HTML body exists. -/
def mixedAltPart (env : BuildEnv) (msg : Message) : PartSpec :=
  { headers := [("Content-Type",
      "multipart/alternative; boundary=\"" ++ env.altBoundary ++ "\"")]
    content := serializeMulti env.altBoundary
      ((if msg.Plain ≠ [] then [textPartSpec msg.Plain] else [])
        ++ (if msg.HTML ≠ [] then [htmlPartSpec msg.HTML] else [])) }

/-- Body selection of `BuildMIME` (the `switch` on lines 62-110 of
`internal/mime_build.go`): the content-type (and, for single parts,
transfer-encoding) header assignments, and the body value, by case
and in the source priority order. -/
def bodyCase (env : BuildEnv) (msg : Message) : List (String × String) × BodyStruct :=
  if msg.Attach ≠ [] then
    let parts := (if msg.Plain ≠ [] ∨ msg.HTML ≠ [] then [mixedAltPart env msg] else [])
      ++ msg.Attach.map (writeAttachmentSpec env.qenc)
    ([("Content-Type", "multipart/mixed; boundary=\"" ++ env.mixedBoundary ++ "\"")],
     .multiPart env.mixedBoundary parts)
  else if msg.Plain ≠ [] ∧ msg.HTML ≠ [] then
    ([("Content-Type", "multipart/alternative; boundary=\"" ++ env.altBoundary ++ "\"")],
     .multiPart env.altBoundary [textPartSpec msg.Plain, htmlPartSpec msg.HTML])
  else if msg.HTML ≠ [] then
    ([("Content-Type", "text/html; charset=\"UTF-8\""),
      ("Content-Transfer-Encoding", "quoted-printable")],
     .singlePart (writeQuotedPrintable msg.HTML))
  else
    ([("Content-Type", "text/plain; charset=\"UTF-8\""),
      ("Content-Transfer-Encoding", "quoted-printable")],
     .singlePart (writeQuotedPrintable msg.Plain))

/-- Assignments of `BuildMIME` before the Message-ID check, in source
order, already filtered by the empty-value guard of `setHeader`. -/
def preHeaderOps (env : BuildEnv) (msg : Message) (listUnsub : String) :
    List (String × String) :=
  setOp "List-Unsubscribe" listUnsub
  ++ setOp "From" (env.addrString msg.From)
  ++ (if msg.To ≠ [] then setOp "To" (joinAddrs env.addrString msg.To) else [])
  ++ (if msg.Cc ≠ [] then setOp "Cc" (joinAddrs env.addrString msg.Cc) else [])
  ++ setOp "Subject" (sanitizeHeader msg.Subject)
  ++ setOp "Date" env.dateStr
  ++ setOp "MIME-Version" "1.0"
  ++ (if msg.TrackingID ≠ "" then setOp "X-Tracking-ID" (sanitizeHeader msg.TrackingID) else [])

/-- The Message-ID assignment: generated only when the exact key
`"Message-ID"` is absent from the map (`if _, ok := h["Message-ID"]`,
a case-sensitive Go map lookup).  No earlier assignment touches that
key, so reading the original map is equivalent to reading the clone. -/
def msgIdOps (env : BuildEnv) (msg : Message) : List (String × String) :=
  if (msg.Headers.lookup "Message-ID").isSome then []
  else setOp "Message-ID" (genMessageID msg.From.Mail env.randB env.nowNanos)

/-- The header-map assignments `BuildMIME` performs on its private
clone, in source order. -/
def headerOps (env : BuildEnv) (msg : Message) (listUnsub : String) :
    List (String × String) :=
  preHeaderOps env msg listUnsub ++ msgIdOps env msg ++ (bodyCase env msg).1

/-- Apply a list of header assignments to a map. -/
def applyOps (m : HeaderMap) (ops : List (String × String)) : HeaderMap :=
  ops.foldl (fun h p => mapSet h p.1 p.2) m

/-- Result of a successful build: the final header map and the body.
The full payload is the headers serialized (in the random order of Go
map iteration) followed by a blank line and `body.bytes`; no claim
depends on the header serialization order. -/
structure BuildOut where
  headers : HeaderMap
  body : BodyStruct
deriving DecidableEq

/-- `BuildMIME` (`internal/mime_build.go`) for the `dkim == nil`,
`hooks == nil` invocation: validate, clone the caller's header map,
apply the header injections, build the body.  The DKIM branch is
modelled separately by `BuildDKIMSignature`. -/
def BuildMIME (env : BuildEnv) (msg : Message) (listUnsub : String) :
    Except String BuildOut :=
  match msg.Validate with
  | some e => .error e
  | none =>
    .ok { headers := applyOps msg.CloneHeaders (headerOps env msg listUnsub)
          body := (bodyCase env msg).2 }

/-- A tiny heap of header maps, making visible which Go map the build
mutates: indices are references, the caller's `msg.Headers` lives at
one of them. -/
abbrev HeaderHeap := List HeaderMap

/-- Dereference. -/
def heapGet (hp : HeaderHeap) (r : Nat) : HeaderMap := hp.getD r []

/-- Allocate a fresh map holding the given entries (the copy
`CloneHeaders` makes). -/
def heapAlloc (hp : HeaderHeap) (m : HeaderMap) : HeaderHeap × Nat :=
  (hp ++ [m], hp.length)

/-- In-place Go map assignment through a reference. -/
def heapSet (hp : HeaderHeap) (r : Nat) (k v : String) : HeaderHeap :=
  hp.set r (mapSet (heapGet hp r) k v)

/-- `BuildMIME` as it acts on the heap of header maps: the message's
header map is the one at `r`; a validation failure returns before
anything is cloned or written; otherwise every assignment goes to the
freshly allocated clone.  Returns the heap afterwards and the
reference to the private map (if the build got that far). -/
def BuildMIMEHeap (env : BuildEnv) (hp : HeaderHeap) (r : Nat)
    (msg : Message) (listUnsub : String) : HeaderHeap × Option Nat :=
  let m := { msg with Headers := heapGet hp r }
  match m.Validate with
  | some _ => (hp, none)
  | none =>
    let a := heapAlloc hp (heapGet hp r)
    ((headerOps env m listUnsub).foldl (fun h p => heapSet h a.2 p.1 p.2) a.1, some a.2)

/-- types.DKIMConfig (`types/types.go`). -/
structure DKIMConfig where
  Domain : String
  Selector : String
  KeyPEM : List Nat
  Headers : List String

/-- `splitCRLF` inner loop: cut after each CRLF, keeping the CRLF in
the line; a trailing CRLF-less remainder is its own line. -/
def splitCRLFAux (cur : List Nat) : List Nat → List (List Nat)
  | [] => if cur = [] then [] else [cur]
  | 13 :: 10 :: rest => (cur ++ [13, 10]) :: splitCRLFAux [] rest
  | c :: rest => splitCRLFAux (cur ++ [c]) rest

/-- `splitCRLF` (`internal/mime_build.go`): empty input yields one
empty line. -/
def splitCRLF (b : List Nat) : List (List Nat) :=
  let ls := splitCRLFAux [] b
  if ls = [] then [[]] else ls

/-- `trimCRLF`: strip a trailing LF, then a trailing CR. -/
def trimCRLF (b : List Nat) : List Nat :=
  let b1 := if b.getLast? = some 10 then b.dropLast else b
  if b1.getLast? = some 13 then b1.dropLast else b1

/-- `stripTrailingWSP`: drop trailing spaces and tabs. -/
def stripTrailingWSP (b : List Nat) : List Nat :=
  (b.reverse.dropWhile fun c => c == 32 || c == 9).reverse

/-- `compressWSP` loop: collapse runs of space/tab to one space. -/
def compressWSPAux (space : Bool) : List Nat → List Nat
  | [] => []
  | c :: rest =>
    if c = 32 ∨ c = 9 then
      if space then compressWSPAux true rest else 32 :: compressWSPAux true rest
    else c :: compressWSPAux false rest

/-- `compressWSP` (`internal/mime_build.go`). -/
def compressWSP (b : List Nat) : List Nat := compressWSPAux false b

/-- Recursion worker for the trailing-empty-line removal loop:
`fuel` only bounds the recursion depth (`fuel = res.length` always
suffices since each step shortens the buffer). -/
def dropTrailingAux : Nat → List Nat → List Nat
  | 0, res => res
  | fuel + 1, res =>
    if 4 ≤ res.length ∧ res.drop (res.length - 4) = [13, 10, 13, 10] then
      dropTrailingAux fuel (res.take (res.length - 2))
    else res

/-- Trailing-empty-line removal loop of the relaxed body
canonicalization: while the buffer ends in CRLF CRLF, drop one CRLF. -/
def dropTrailingEmptyLines (res : List Nat) : List Nat :=
  dropTrailingAux res.length res

/-- `dkimCanonicalizeBodyRelaxed` (RFC 6376 §3.4.4 relaxed body
canonicalization as the source implements it). -/
def dkimCanonicalizeBodyRelaxed (b : List Nat) : List Nat :=
  let res := ((splitCRLF b).map fun ln =>
    compressWSP (stripTrailingWSP (trimCRLF ln)) ++ [13, 10]).flatten
  dropTrailingEmptyLines res

/-- Go space class used by `strings.TrimSpace` (ASCII part). -/
def isGoSpace (c : Char) : Bool :=
  c == ' ' || c == '\t' || c == '\n' || c == '\r' || c == '\x0b' || c == '\x0c'

/-- `strings.TrimSpace` over a character list. -/
def trimSpaceChars (l : List Char) : List Char :=
  ((l.dropWhile isGoSpace).reverse.dropWhile isGoSpace).reverse

/-- Lowercasing of an ASCII string, per character. -/
def lowerStr (s : String) : String := String.mk (s.data.map Char.toLower)

/-- CRLF to LF normalization step of `unfoldHeader`. -/
def replaceCRLF : List Char → List Char
  | [] => []
  | '\r' :: '\n' :: rest => '\n' :: replaceCRLF rest
  | c :: rest => c :: replaceCRLF rest

/-- Main loop of `unfoldHeader`: LF followed by whitespace folds to a
single space, a lone LF disappears, whitespace runs collapse. -/
def unfoldAux (prevSpace : Bool) : List Char → List Char
  | [] => []
  | '\n' :: c :: rest =>
    if c = ' ' ∨ c = '\t' then
      if prevSpace then unfoldAux true rest else ' ' :: unfoldAux true rest
    else unfoldAux prevSpace (c :: rest)
  | ['\n'] => []
  | c :: rest =>
    if c = ' ' ∨ c = '\t' then
      if prevSpace then unfoldAux true rest else ' ' :: unfoldAux true rest
    else c :: unfoldAux false rest
termination_by l => l.length
decreasing_by
  all_goals simp only [List.length_cons]
  all_goals omega

/-- `unfoldHeader` (`internal/mime_build.go`). -/
def unfoldHeader (v : String) : String := String.mk (unfoldAux false (replaceCRLF v.data))

/-- Whitespace collapsing over characters (the `compressWSP` loop as
applied to header values). -/
def compressWSPChars (space : Bool) : List Char → List Char
  | [] => []
  | c :: rest =>
    if c = ' ' ∨ c = '\t' then
      if space then compressWSPChars true rest else ' ' :: compressWSPChars true rest
    else c :: compressWSPChars false rest

/-- `dkimCanonHeaderRelaxed` (RFC 6376 §3.4.2): lowercase and trim
the name, unfold and collapse the value. -/
def dkimCanonHeaderRelaxed (name value : String) : String :=
  let lname := lowerStr (String.mk (trimSpaceChars name.data))
  let v := unfoldHeader value
  lname ++ ":" ++ String.mk (trimSpaceChars (compressWSPChars false v.data))

/-- Split at the first colon (`strings.SplitN(line, ":", 2)`). -/
def splitOnceColon : List Char → Option (List Char × List Char)
  | [] => none
  | c :: rest =>
    if c = ':' then some ([], rest)
    else
      match splitOnceColon rest with
      | none => none
      | some (a, b) => some (c :: a, b)

/-- `dkimCanonLine`. -/
def dkimCanonLine (line : String) : String :=
  match splitOnceColon line.data with
  | none => lowerStr (String.mk (trimSpaceChars line.data))
  | some (n, v) => dkimCanonHeaderRelaxed (String.mk n) (String.mk v)

/-- `headerLookup` (`internal/mime_build.go`): find a stored key by
case-insensitive comparison; returns the stored key.  The Go map
iteration order is random when several keys differ only by case; the
model returns the first match in list order. -/
def headerLookup (h : HeaderMap) (name : String) : Option String :=
  (h.find? fun p => lowerStr p.1 == lowerStr name).map Prod.fst

/-- Header list to sign: the configured list, or the fixed default
subset when unset (`BuildDKIMSignature`). -/
def dkimHList (cfg : DKIMConfig) : List String :=
  if cfg.Headers = [] then
    ["from", "to", "subject", "date", "mime-version", "content-type", "message-id"]
  else cfg.Headers

/-- The headers actually signed: those of the list present in the
map (case-insensitive lookup), with their stored key and value,
keeping the requested order. -/
def dkimSelected (headers : HeaderMap) (cfg : DKIMConfig) : List (String × String) :=
  (dkimHList cfg).filterMap fun name =>
    match headerLookup headers name with
    | none => none
    | some hn => some (hn, (headers.lookup hn).getD "")

/-- The eight `tag=value` fields of the signature before `b=`, in
source (insertion) order. -/
def dkimFieldList (sha256 : List Nat → List Nat) (now : Nat)
    (headers : HeaderMap) (body : List Nat) (cfg : DKIMConfig) : List (String × String) :=
  [("v", "1"), ("a", "rsa-sha256"), ("c", "relaxed/relaxed"),
   ("d", cfg.Domain), ("s", cfg.Selector), ("t", toString now),
   ("bh", b64String (sha256 (dkimCanonicalizeBodyRelaxed body))),
   ("h", joinSep ":" ((dkimSelected headers cfg).map fun p => lowerStr p.1))]

/-- The `tag=value; `-joined string with tags sorted by name
(`sort.Strings` over the field-map keys), still without `b=`. -/
def dkimTagStr (sha256 : List Nat → List Nat) (now : Nat)
    (headers : HeaderMap) (body : List Nat) (cfg : DKIMConfig) : String :=
  let fields := dkimFieldList sha256 now headers body cfg
  joinSep "; "
    ((sortStrings (fields.map Prod.fst)).map fun k => k ++ "=" ++ ((fields.lookup k).getD ""))

/-- The signing input: each selected header in relaxed canonical form
(CRLF-terminated), then the canonical form of the DKIM-Signature
header itself with an empty `b=`, CRLF-terminated. -/
def dkimToSign (sha256 : List Nat → List Nat) (now : Nat)
    (headers : HeaderMap) (body : List Nat) (cfg : DKIMConfig) : String :=
  String.join (((dkimSelected headers cfg).map fun p =>
      dkimCanonHeaderRelaxed p.1 p.2) |>.map fun ln => ln ++ "\r\n")
    ++ dkimCanonLine ("DKIM-Signature: " ++ dkimTagStr sha256 now headers body cfg ++ "; b=")
    ++ "\r\n"

/-- `BuildDKIMSignature` (`internal/mime_build.go`).  The stdlib
crypto primitives are abstracted and universally quantified in the
theorems: `parseKey` models `parseRSAPrivateKey` over the PEM bytes,
`sha256` the SHA-256 digest of a byte string, `rsaSign`
`rsa.SignPKCS1v15` applied to a digest.  `now` is the Unix timestamp
used for the `t=` tag. -/
def BuildDKIMSignature {K : Type} (parseKey : List Nat → Except String K)
    (sha256 : List Nat → List Nat) (rsaSign : K → List Nat → Except String (List Nat))
    (now : Nat) (headers : HeaderMap) (body : List Nat) (cfg : DKIMConfig) :
    Except String String :=
  if cfg.Domain = "" ∨ cfg.Selector = "" ∨ cfg.KeyPEM = [] then
    .error "dkim: incomplete config"
  else
    match parseKey cfg.KeyPEM with
    | .error e => .error ("dkim: parse key: " ++ e)
    | .ok key =>
      let bStr := dkimTagStr sha256 now headers body cfg
      match rsaSign key (sha256 (strBytes (dkimToSign sha256 now headers body cfg))) with
      | .error e => .error ("dkim: sign: " ++ e)
      | .ok sig => .ok (bStr ++ "; b=" ++ b64String sig)

/-! ### General helper lemmas -/

theorem infix_map {l₁ l₂ : List Char} (f : Char → Char) (h : l₁ <:+: l₂) :
    l₁.map f <:+: l₂.map f := by
  obtain ⟨s, t, rfl⟩ := h
  exact ⟨s.map f, t.map f, by simp⟩

theorem infix_append_right {α : Type} {l a : List α} (b : List α) (h : l <:+: a) :
    l <:+: a ++ b := by
  obtain ⟨s, t, rfl⟩ := h
  exact ⟨s, t ++ b, by simp⟩

theorem infix_append_left {α : Type} {l b : List α} (a : List α) (h : l <:+: b) :
    l <:+: a ++ b := by
  obtain ⟨s, t, rfl⟩ := h
  exact ⟨a ++ s, t, by simp⟩

/-! ### C7: transient-error classifier -/

theorem isTransient_false_iff (s : List Char) :
    isTransient false s = true ↔
      (" 4".toList <:+: s ∨ "4xx".toList <:+: s ∨
        ∃ m ∈ transientMarkers, m.toList <:+: s.map Char.toLower) := by
  unfold isTransient
  simp [containsB, List.any_eq_true, or_assoc]

theorem isTransient_of_marker {s : List Char} {m : String} (hm : m ∈ transientMarkers)
    (h : m.toList <:+: s.map Char.toLower) : isTransient false s = true := by
  rw [isTransient_false_iff]
  exact Or.inr (Or.inr ⟨m, hm, h⟩)

/-- C7: the transient-error classifier accepts every error text
containing "421 try again later", "4xx", "timeout" or
"connection reset"; it rejects "permanent 550 user unknown",
"syntax error", and more generally any text containing none of the
raw markers (" 4", "4xx") and none of the lowercase markers. -/
theorem c7_transient_classifier :
    (∀ s : List Char, "421 try again later".toList <:+: s → isTransient false s = true) ∧
    (∀ s : List Char, "4xx".toList <:+: s → isTransient false s = true) ∧
    (∀ s : List Char, "timeout".toList <:+: s → isTransient false s = true) ∧
    (∀ s : List Char, "connection reset".toList <:+: s → isTransient false s = true) ∧
    isTransient false "permanent 550 user unknown".toList = false ∧
    isTransient false "syntax error".toList = false ∧
    (∀ s : List Char, ¬ " 4".toList <:+: s → ¬ "4xx".toList <:+: s →
      (∀ m ∈ transientMarkers, ¬ m.toList <:+: s.map Char.toLower) →
      isTransient false s = false) := by
  refine ⟨?_, ?_, ?_, ?_, by decide, by decide, ?_⟩
  · intro s hs
    apply isTransient_of_marker (m := "try again") (by decide)
    have h1 : "try again".toList <:+: "421 try again later".toList := by decide
    have h2 := infix_map Char.toLower (h1.trans hs)
    rwa [show "try again".toList.map Char.toLower = "try again".toList from by decide] at h2
  · intro s hs
    rw [isTransient_false_iff]
    exact Or.inr (Or.inl hs)
  · intro s hs
    apply isTransient_of_marker (m := "timeout") (by decide)
    have h2 := infix_map Char.toLower hs
    rwa [show "timeout".toList.map Char.toLower = "timeout".toList from by decide] at h2
  · intro s hs
    apply isTransient_of_marker (m := "connection reset") (by decide)
    have h2 := infix_map Char.toLower hs
    rwa [show "connection reset".toList.map Char.toLower = "connection reset".toList
      from by decide] at h2
  · intro s h1 h2 h3
    cases hval : isTransient false s with
    | false => rfl
    | true =>
      rcases (isTransient_false_iff s).mp hval with h | h | ⟨m, hm, hinf⟩
      · exact absurd h h1
      · exact absurd h h2
      · exact absurd hinf (h3 m hm)

/-- Witness for C7 at concrete error texts. -/
theorem c7_transient_classifier_witness :
    isTransient false "read tcp: timeout while waiting".toList = true ∧
    isTransient false "reply was 4xx".toList = true := by
  constructor
  · exact c7_transient_classifier.2.2.1 _ (by decide)
  · exact c7_transient_classifier.2.1 _ (by decide)

/-! ### C5: exponential backoff -/

theorem expDelay_eq_min {b : ExpBackoff} (hm : 0 < b.max) (i : Nat) :
    expDelay b i = min (b.base * 2 ^ (i - 1)) b.max := by
  unfold expDelay
  split <;> omega

/-- C5: with attempt budget ≥ 1 and a positive cap, `Next(0)` is
(0, true); `Next(i)` is (0, false) for `i ≥ attempts`; and for
`1 ≤ i < attempts` the returned delay lies in `[0, d]` under full
jitter and in `[d/2, d]` under half jitter, where
`d = min(base·2^(i−1), max)`. -/
theorem c5_backoff (b : ExpBackoff) (hn : 1 ≤ b.attempts) (hm : 0 < b.max) :
    (∀ j, b.next 0 j = (0, true)) ∧
    (∀ i j, b.attempts ≤ i → b.next i j = (0, false)) ∧
    (∀ i j, 1 ≤ i → i < b.attempts →
      (b.next i j).2 = true ∧
      (b.fullJitter = true → (b.next i j).1 ≤ min (b.base * 2 ^ (i - 1)) b.max) ∧
      (b.fullJitter = false →
        min (b.base * 2 ^ (i - 1)) b.max / 2 ≤ (b.next i j).1 ∧
        (b.next i j).1 ≤ min (b.base * 2 ^ (i - 1)) b.max)) := by
  refine ⟨?_, ?_, ?_⟩
  · intro j
    unfold ExpBackoff.next
    rw [if_neg (by omega), if_pos rfl]
  · intro i j h
    unfold ExpBackoff.next
    rw [if_pos h]
  · intro i j h1 h2
    have hd := expDelay_eq_min hm i
    unfold ExpBackoff.next
    rw [if_neg (by omega), if_neg (by omega)]
    refine ⟨?_, ?_, ?_⟩
    · split <;> rfl
    · intro hf
      rw [if_pos hf, hd]
      have := Nat.mod_lt j (show 0 < min (b.base * 2 ^ (i - 1)) b.max + 1 by omega)
      simpa using by omega
    · intro hf
      rw [if_neg (by rw [hf]; exact Bool.false_ne_true), hd]
      have := Nat.mod_lt j
        (show 0 < min (b.base * 2 ^ (i - 1)) b.max / 2 + 1 by omega)
      constructor <;> simp only [] <;> omega

/-- Witness for C5 at the test configuration attempts=4, base=100,
cap=250 (half jitter), draw j=7. -/
theorem c5_backoff_witness :
    (ExpBackoff.next ⟨4, 100, 250, false⟩ 0 7 = (0, true)) ∧
    (ExpBackoff.next ⟨4, 100, 250, false⟩ 4 7 = (0, false)) := by
  have h := c5_backoff ⟨4, 100, 250, false⟩ (by decide) (by decide)
  exact ⟨h.1 7, h.2.1 4 7 (by decide)⟩

/-! ### C4: BuildMIME validation -/

/-- C4: without DKIM, `BuildMIME` fails exactly on messages violating
the data-model invariant (no sender, no recipient across To/Cc/Bcc,
or none of plain body / HTML body / attachment), and succeeds on
every message satisfying it. -/
theorem c4_validate (env : BuildEnv) (msg : Message) (lu : String) :
    ((msg.From.Mail = "" ∨ (msg.To = [] ∧ msg.Cc = [] ∧ msg.Bcc = [])
        ∨ (msg.Plain = [] ∧ msg.HTML = [] ∧ msg.Attach = [])) →
      ∃ e, BuildMIME env msg lu = Except.error e) ∧
    (msg.From.Mail ≠ "" → ¬(msg.To = [] ∧ msg.Cc = [] ∧ msg.Bcc = []) →
      ¬(msg.Plain = [] ∧ msg.HTML = [] ∧ msg.Attach = []) →
      ∃ out, BuildMIME env msg lu = Except.ok out) := by
  constructor
  · intro h
    unfold BuildMIME Message.Validate
    rcases h with h | h | h
    · rw [if_pos h]; exact ⟨_, rfl⟩
    · by_cases c1 : msg.From.Mail = ""
      · rw [if_pos c1]; exact ⟨_, rfl⟩
      · rw [if_neg c1, if_pos h]; exact ⟨_, rfl⟩
    · by_cases c1 : msg.From.Mail = ""
      · rw [if_pos c1]; exact ⟨_, rfl⟩
      · rw [if_neg c1]
        by_cases c2 : msg.To = [] ∧ msg.Cc = [] ∧ msg.Bcc = []
        · rw [if_pos c2]; exact ⟨_, rfl⟩
        · rw [if_neg c2, if_pos h]; exact ⟨_, rfl⟩
  · intro h1 h2 h3
    unfold BuildMIME Message.Validate
    rw [if_neg h1, if_neg h2, if_neg h3]
    exact ⟨_, rfl⟩

/-- Witness for C4: an invalid message (no recipients) fails, a
minimal valid message succeeds. -/
theorem c4_validate_witness :
    (∃ e, BuildMIME ⟨fun a => a.Mail, id, "D", 1, [], "MB", "AB"⟩
      ⟨⟨"", "a@x"⟩, [], [], [], "", [104], [], [], [], ""⟩ "" = Except.error e) ∧
    (∃ out, BuildMIME ⟨fun a => a.Mail, id, "D", 1, [], "MB", "AB"⟩
      ⟨⟨"", "a@x"⟩, [⟨"", "b@y"⟩], [], [], "", [104], [], [], [], ""⟩ "" = Except.ok out) := by
  constructor
  · exact (c4_validate _ _ _).1 (Or.inr (Or.inl (by simp)))
  · exact (c4_validate _ _ _).2 (by simp) (by simp) (by simp)

/-! ### C10: token bucket -/

theorem tbInv_new (r : ℚ) (bu : Int) : TBInv (NewTokenBucket r bu) := by
  unfold TBInv NewTokenBucket
  refine ⟨?_, ?_, ?_, ?_⟩ <;> dsimp only
  · split
    · norm_num
    · rename_i h; exact lt_of_not_le h
  · split
    · norm_num
    · rename_i h; omega
  · split
    · norm_num
    · rename_i h
      have : (1 : ℚ) ≤ (bu : ℚ) := by exact_mod_cast (by omega : (1 : Int) ≤ bu)
      linarith
  · exact le_refl _

theorem tbInv_refill {tb : TokenBucket} {dt : ℚ} (h : TBInv tb) (hdt : 0 ≤ dt) :
    TBInv (tb.refill dt) ∧ (tb.refill dt).burst = tb.burst := by
  obtain ⟨h1, h2, h3, h4⟩ := h
  have hb : (0 : ℚ) ≤ (tb.burst : ℚ) := by
    exact_mod_cast (by omega : (0 : Int) ≤ tb.burst)
  unfold TokenBucket.refill
  refine ⟨⟨h1, h2, ?_, ?_⟩, rfl⟩ <;> dsimp only
  · split
    · exact hb
    · have : 0 ≤ dt * tb.rate := mul_nonneg hdt (le_of_lt h1)
      linarith
  · split
    · exact le_refl _
    · rename_i hlt
      exact le_of_not_lt hlt

theorem tbInv_take {tb tb2 : TokenBucket} (h : TBInv tb) (ht : tb.take = some tb2) :
    TBInv tb2 ∧ tb2.burst = tb.burst := by
  obtain ⟨h1, h2, h3, h4⟩ := h
  have hb1 : (1 : ℚ) ≤ (tb.burst : ℚ) := by exact_mod_cast h2
  unfold TokenBucket.take at ht
  split at ht
  · rename_i hge
    cases ht
    exact ⟨⟨h1, h2, by dsimp only; linarith, by dsimp only; linarith⟩, rfl⟩
  · exact absurd ht (by simp)

theorem waitRun_cons (tb : TokenBucket) (dt : ℚ) (rest : List ℚ) :
    tb.waitRun (dt :: rest) =
      match (tb.refill dt).take with
      | some tb1 => some tb1
      | none => (tb.refill dt).waitRun rest := rfl

theorem tbInv_waitRun {tb tb2 : TokenBucket} {dts : List ℚ}
    (h : TBInv tb) (hdts : ∀ dt ∈ dts, 0 ≤ dt) (hr : tb.waitRun dts = some tb2) :
    TBInv tb2 ∧ tb2.burst = tb.burst := by
  induction dts generalizing tb with
  | nil => exact absurd hr (by rw [show tb.waitRun [] = none from rfl]; simp)
  | cons dt rest ih =>
    rw [waitRun_cons] at hr
    have hinv := tbInv_refill h (hdts dt (by simp))
    cases htk : (tb.refill dt).take with
    | some tb1 =>
      rw [htk] at hr
      cases hr
      have h2 := tbInv_take hinv.1 htk
      exact ⟨h2.1, by rw [h2.2, hinv.2]⟩
    | none =>
      rw [htk] at hr
      have h2 := ih hinv.1 (fun d hd => hdts d (by simp [hd])) hr
      exact ⟨h2.1, by rw [h2.2, hinv.2]⟩

/-- C10: `NewTokenBucket` clamps non-positive rate to 1/s and
non-positive burst to 1; the token count starts at exactly the burst
capacity; and after every (terminating) `Wait`, starting from the
fresh bucket or any bucket satisfying the invariant,
`0 ≤ tokens ≤ burst` still holds. -/
theorem c10_token_bucket (r : ℚ) (bu : Int) :
    ((NewTokenBucket r bu).tokens = ((NewTokenBucket r bu).burst : ℚ)) ∧
    (r ≤ 0 → (NewTokenBucket r bu).rate = 1) ∧
    (bu ≤ 0 → (NewTokenBucket r bu).burst = 1) ∧
    (0 < r → (NewTokenBucket r bu).rate = r) ∧
    (0 < bu → (NewTokenBucket r bu).burst = bu) ∧
    (∀ dts tb2, (∀ dt ∈ dts, 0 ≤ dt) →
      (NewTokenBucket r bu).waitRun dts = some tb2 →
      0 ≤ tb2.tokens ∧ tb2.tokens ≤ (tb2.burst : ℚ) ∧
        tb2.burst = (NewTokenBucket r bu).burst) ∧
    (∀ tb dts tb2, TBInv tb → (∀ dt ∈ dts, 0 ≤ dt) → tb.waitRun dts = some tb2 →
      TBInv tb2) := by
  refine ⟨rfl, ?_, ?_, ?_, ?_, ?_, ?_⟩
  · intro h; simp [NewTokenBucket, if_pos h]
  · intro h; simp [NewTokenBucket, if_pos h]
  · intro h; simp [NewTokenBucket, if_neg (not_le.mpr h)]
  · intro h; simp [NewTokenBucket, if_neg (not_le.mpr h)]
  · intro dts tb2 hdts hr
    have := tbInv_waitRun (tbInv_new r bu) hdts hr
    exact ⟨this.1.2.2.1, this.1.2.2.2, this.2⟩
  · intro tb dts tb2 h hdts hr
    exact (tbInv_waitRun h hdts hr).1

/-- Witness for C10: rate 10/s, burst 2; one wait with no elapsed
time succeeds and leaves one token. -/
theorem c10_token_bucket_witness :
    0 ≤ (1 : ℚ) ∧
    ((NewTokenBucket 10 2).waitRun [0] = some ⟨10, 2, 1⟩ →
      0 ≤ (⟨10, 2, 1⟩ : TokenBucket).tokens) := by
  constructor
  · norm_num
  · intro hr
    exact ((c10_token_bucket 10 2).2.2.2.2.2.1 [0] ⟨10, 2, 1⟩
      (by intro dt hdt; simp at hdt; simp [hdt]) hr).1

/-! ### C6: connection pool -/

theorem popIdle_all_unusable {ttl now : Nat} {healthy : Option (Nat → Bool)}
    {hasClose : Bool} {l : List PoolItem}
    (h : ∀ it ∈ l, ¬ (now - it.ts ≤ ttl ∧ healthyOk healthy it.conn)) :
    popIdle ttl now healthy hasClose l
      = (none, if hasClose then l.map PoolItem.conn else [], []) := by
  induction l with
  | nil => cases hasClose <;> simp [popIdle]
  | cons it rest ih =>
    unfold popIdle
    rw [if_neg (h it (by simp)), ih (fun x hx => h x (by simp [hx]))]
    cases hasClose <;> simp

/-- C6: pool behaviors.  (a) With `maxIdle = 1` and a close function,
releasing two connections into an empty pool caches the first and
closes exactly the second.  (b) A single idle entry older than the
TTL is closed and never handed out by the next acquire; the acquire
falls through to the create function.  (c) With no create function
and no usable idle entry, acquire returns a nil connection and a nil
error.  (d) A failing create function propagates its error
verbatim. -/
theorem c6_conn_pool :
    (∀ (p : ConnPool) (c1 c2 t1 t2 : Nat), p.maxIdle = 1 → p.hasClose = true →
      p.idle = [] →
      (p.put (some c1) t1).2 = [] ∧
      (p.put (some c1) t1).1.idle = [⟨c1, t1⟩] ∧
      ((p.put (some c1) t1).1.put (some c2) t2).2 = [c2] ∧
      ((p.put (some c1) t1).1.put (some c2) t2).1.idle = [⟨c1, t1⟩]) ∧
    (∀ (mi ttl now c ts : Nat) (iu : Int) (healthy : Option (Nat → Bool))
        (newFn : Option (Except String Nat)), ¬ now - ts ≤ ttl →
      ((⟨mi, ttl, true, [⟨c, ts⟩], iu⟩ : ConnPool).get now healthy newFn).closed = [c] ∧
      ((⟨mi, ttl, true, [⟨c, ts⟩], iu⟩ : ConnPool).get now healthy newFn).pool.idle = [] ∧
      ((⟨mi, ttl, true, [⟨c, ts⟩], iu⟩ : ConnPool).get now healthy newFn).conn
        = (match newFn with
          | some (Except.ok c2) => some c2
          | _ => none)) ∧
    (∀ (p : ConnPool) (now : Nat) (healthy : Option (Nat → Bool)),
      (∀ it ∈ p.idle, ¬ (now - it.ts ≤ p.idleTTL ∧ healthyOk healthy it.conn)) →
      (p.get now healthy none).conn = none ∧ (p.get now healthy none).err = none) ∧
    (∀ (p : ConnPool) (now : Nat) (healthy : Option (Nat → Bool)) (e : String),
      (∀ it ∈ p.idle, ¬ (now - it.ts ≤ p.idleTTL ∧ healthyOk healthy it.conn)) →
      (p.get now healthy (some (Except.error e))).err = some e ∧
      (p.get now healthy (some (Except.error e))).conn = none) := by
  refine ⟨?_, ?_, ?_, ?_⟩
  · intro p c1 c2 t1 t2 h1 h2 h3
    unfold ConnPool.put
    simp only [h1, h2, h3, List.length_nil]
    rw [if_neg (by omega)]
    simp only [List.length_cons, List.length_nil]
    rw [if_pos (by omega)]
    simp
  · intro mi ttl now c ts iu healthy newFn h
    have hpop := @popIdle_all_unusable ttl now healthy true [⟨c, ts⟩]
      (by intro it hit; simp at hit; subst hit; exact fun hc => h hc.1)
    unfold ConnPool.get
    rw [hpop]
    rcases newFn with _ | e2
    · exact ⟨rfl, rfl, rfl⟩
    · rcases e2 with e2 | c2 <;> exact ⟨rfl, rfl, rfl⟩
  · intro p now healthy h
    unfold ConnPool.get
    rw [popIdle_all_unusable h]
    exact ⟨rfl, rfl⟩
  · intro p now healthy e h
    unfold ConnPool.get
    rw [popIdle_all_unusable h]
    exact ⟨rfl, rfl⟩

/-- Witness for C6 at concrete values: maxIdle=1 pool, stale entry
with TTL 50 at age 60, empty pool with nil/failing create. -/
theorem c6_conn_pool_witness :
    ((⟨1, 50, true, [⟨7, 0⟩], 0⟩ : ConnPool).get 60 none none).closed = [7] ∧
    ((⟨1, 50, true, [], 0⟩ : ConnPool).get 60 none none).conn = none ∧
    ((⟨1, 50, true, [], 0⟩ : ConnPool).get 60 none
      (some (Except.error "boom"))).err = some "boom" := by
  refine ⟨?_, ?_, ?_⟩
  · exact ((c6_conn_pool.2.1 1 50 60 7 0 0 none none) (by decide)).1
  · exact (c6_conn_pool.2.2.1 ⟨1, 50, true, [], 0⟩ 60 none (by simp)).1
  · exact (c6_conn_pool.2.2.2 ⟨1, 50, true, [], 0⟩ 60 none "boom" (by simp)).1

/-! ### C9: the caller's header map is never mutated -/

theorem heapGet_alloc {hp : HeaderHeap} {m : HeaderMap} {r : Nat} (h : r < hp.length) :
    heapGet (hp ++ [m]) r = heapGet hp r := by
  unfold heapGet
  exact List.getD_append _ _ _ _ h

theorem heapGet_set_ne {hp : HeaderHeap} {r1 r : Nat} {k v : String} (h : r ≠ r1) :
    heapGet (heapSet hp r1 k v) r = heapGet hp r := by
  unfold heapSet heapGet
  rw [List.getD_eq_getElem?_getD, List.getD_eq_getElem?_getD,
    List.getElem?_set_ne (Ne.symm h)]
  exact (List.getD_eq_getElem?_getD _ _ _).symm

theorem heapGet_fold_ne {r1 r : Nat} (ops : List (String × String)) (hp : HeaderHeap)
    (h : r ≠ r1) :
    heapGet (ops.foldl (fun h2 p => heapSet h2 r1 p.1 p.2) hp) r = heapGet hp r := by
  induction ops generalizing hp with
  | nil => rfl
  | cons op rest ih => rw [List.foldl_cons, ih, heapGet_set_ne h]

theorem heapGet_set_self {hp : HeaderHeap} {r : Nat} {k v : String} (h : r < hp.length) :
    heapGet (heapSet hp r k v) r = mapSet (heapGet hp r) k v := by
  unfold heapSet heapGet
  rw [List.getD_eq_getElem?_getD, List.getElem?_set_self (by omega)]
  rfl

theorem heapGet_fold_self {r1 : Nat} (ops : List (String × String)) (hp : HeaderHeap)
    (h : r1 < hp.length) :
    heapGet (ops.foldl (fun h2 p => heapSet h2 r1 p.1 p.2) hp) r1
      = applyOps (heapGet hp r1) ops := by
  induction ops generalizing hp with
  | nil => rfl
  | cons op rest ih =>
    rw [List.foldl_cons, applyOps, List.foldl_cons,
      show List.foldl (fun h2 p => mapSet h2 p.1 p.2) (mapSet (heapGet hp r1) op.1 op.2) rest
        = applyOps (mapSet (heapGet hp r1) op.1 op.2) rest from rfl,
      ih _ (by rw [heapSet, List.length_set]; exact h), heapGet_set_self h]

theorem heapGet_concat (hp : HeaderHeap) (m : HeaderMap) :
    heapGet (hp ++ [m]) hp.length = m := by
  unfold heapGet
  rw [List.getD_eq_getElem?_getD, List.getElem?_append_right (le_refl _)]
  simp

/-- C9: `BuildMIME` acting on the heap leaves the caller's header map
(at reference `r`) untouched — on success and on validation failure —
and performs all its header assignments on the freshly allocated
clone, which ends up holding exactly the header map of the pure
model. -/
theorem c9_frame (env : BuildEnv) (hp : HeaderHeap) (r : Nat) (msg : Message)
    (lu : String) (hr : r < hp.length) :
    heapGet (BuildMIMEHeap env hp r msg lu).1 r = heapGet hp r ∧
    (∀ r2, (BuildMIMEHeap env hp r msg lu).2 = some r2 →
      r2 ≠ r ∧
      heapGet (BuildMIMEHeap env hp r msg lu).1 r2
        = applyOps (heapGet hp r)
            (headerOps env { msg with Headers := heapGet hp r } lu)) := by
  unfold BuildMIMEHeap
  cases hv : ({ msg with Headers := heapGet hp r } : Message).Validate with
  | some e =>
    simp only [hv]
    exact ⟨by trivial, fun r2 h2 => absurd h2 (by simp)⟩
  | none =>
    simp only [hv, heapAlloc]
    constructor
    · rw [heapGet_fold_ne _ _ (by omega), heapGet_alloc hr]
    · intro r2 h2
      simp only [Option.some_inj] at h2
      subst h2
      refine ⟨by omega, ?_⟩
      rw [heapGet_fold_self _ _ (by simp), heapGet_concat]

/-- Witness for C9 on a concrete heap. -/
theorem c9_frame_witness :
    heapGet (BuildMIMEHeap ⟨fun a => a.Mail, id, "D", 1, [], "MB", "AB"⟩
      [[("K", "V")]] 0 ⟨⟨"", "a@x"⟩, [⟨"", "b@y"⟩], [], [], "", [104], [], [], [], ""⟩
      "").1 0 = heapGet [[("K", "V")]] 0 :=
  (c9_frame ⟨fun a => a.Mail, id, "D", 1, [], "MB", "AB"⟩ [[("K", "V")]] 0
    ⟨⟨"", "a@x"⟩, [⟨"", "b@y"⟩], [], [], "", [104], [], [], [], ""⟩ "" (by decide)).1

/-! ### Header-map lookup lemmas -/

theorem lookup_mapSet_self (m : HeaderMap) (k v : String) :
    (mapSet m k v).lookup k = some v := by
  induction m with
  | nil => simp [mapSet, List.lookup]
  | cons p rest ih =>
    unfold mapSet
    by_cases h : p.1 = k
    · rw [if_pos h]; simp [List.lookup]
    · rw [if_neg h]
      simp [List.lookup, beq_eq_false_iff_ne.mpr (Ne.symm h), ih]

theorem lookup_mapSet_ne (m : HeaderMap) {k k2 : String} (v : String) (h : k2 ≠ k) :
    (mapSet m k v).lookup k2 = m.lookup k2 := by
  induction m with
  | nil => simp [mapSet, List.lookup, beq_eq_false_iff_ne.mpr h]
  | cons p rest ih =>
    unfold mapSet
    by_cases hp : p.1 = k
    · rw [if_pos hp]
      subst hp
      simp [List.lookup, beq_eq_false_iff_ne.mpr h]
    · rw [if_neg hp]
      by_cases h2 : k2 = p.1
      · subst h2; simp [List.lookup]
      · simp [List.lookup, beq_eq_false_iff_ne.mpr h2, ih]

theorem applyOps_append (m : HeaderMap) (l1 l2 : List (String × String)) :
    applyOps m (l1 ++ l2) = applyOps (applyOps m l1) l2 :=
  List.foldl_append _ _ _ _

theorem lookup_applyOps_not_mem (m : HeaderMap) {ops : List (String × String)}
    {k : String} (h : ∀ p ∈ ops, p.1 ≠ k) :
    (applyOps m ops).lookup k = m.lookup k := by
  induction ops generalizing m with
  | nil => rfl
  | cons op rest ih =>
    rw [applyOps, List.foldl_cons,
      show List.foldl (fun h2 p => mapSet h2 p.1 p.2) (mapSet m op.1 op.2) rest
        = applyOps (mapSet m op.1 op.2) rest from rfl,
      ih (m := mapSet m op.1 op.2) (fun p hp => h p (List.mem_cons_of_mem _ hp)),
      lookup_mapSet_ne _ _ (fun he => h op (List.mem_cons_self _ _) he.symm)]

theorem mem_setOp {p : String × String} {k v : String} (h : p ∈ setOp k v) : p.1 = k := by
  unfold setOp at h
  split at h
  · simp at h
  · simp at h; rw [h]

theorem mem_ite_setOp {p : String × String} {c : Prop} [Decidable c] {k v : String}
    (h : p ∈ if c then setOp k v else []) : p.1 = k := by
  split at h
  · exact mem_setOp h
  · simp at h

/-- No assignment before the Message-ID check and no content-type
assignment touches the `"Message-ID"` key. -/
theorem preHeaderOps_keys (env : BuildEnv) (msg : Message) (lu : String) :
    ∀ p ∈ preHeaderOps env msg lu, p.1 ≠ "Message-ID" := by
  intro p hp
  unfold preHeaderOps at hp
  simp only [List.append_assoc, List.mem_append] at hp
  rcases hp with h | h | h | h | h | h | h | h
  · rw [mem_setOp h]; decide
  · rw [mem_setOp h]; decide
  · rw [mem_ite_setOp h]; decide
  · rw [mem_ite_setOp h]; decide
  · rw [mem_setOp h]; decide
  · rw [mem_setOp h]; decide
  · rw [mem_setOp h]; decide
  · rw [mem_ite_setOp h]; decide

theorem bodyCase_keys (env : BuildEnv) (msg : Message) :
    ∀ p ∈ (bodyCase env msg).1,
      p.1 = "Content-Type" ∨ p.1 = "Content-Transfer-Encoding" := by
  intro p hp
  unfold bodyCase at hp
  split at hp
  · simp at hp; rw [hp]; left; rfl
  · split at hp
    · simp at hp; rw [hp]; left; rfl
    · split at hp
      · simp at hp
        rcases hp with hp | hp <;> rw [hp] <;> simp
      · simp at hp
        rcases hp with hp | hp <;> rw [hp] <;> simp

theorem bodyCase_keys_ne_msgid (env : BuildEnv) (msg : Message) :
    ∀ p ∈ (bodyCase env msg).1, p.1 ≠ "Message-ID" := by
  intro p hp
  rcases bodyCase_keys env msg p hp with h | h <;> rw [h] <;> decide

/-- On a valid message, `BuildMIME` succeeds with the clone-derived
header map and the selected body. -/
theorem buildMIME_ok (env : BuildEnv) (msg : Message) (lu : String)
    (hval : msg.Validate = none) :
    BuildMIME env msg lu
      = Except.ok ⟨applyOps msg.Headers (headerOps env msg lu), (bodyCase env msg).2⟩ := by
  unfold BuildMIME
  rw [hval]
  rfl

theorem genMessageID_ne_empty (f : String) (r : List Nat) (n : Nat) :
    genMessageID f r n ≠ "" := by
  intro h
  have h2 := congrArg String.length h
  rw [genMessageID] at h2
  simp [String.length_append] at h2
  exact absurd h2.1.1.1.1.1 (by decide)

/-! ### C8: Message-ID generation (corrected) -/

/-- The final Message-ID entry of a build: the supplied one when the
exact key `"Message-ID"` was present, the generated one otherwise. -/
theorem lookup_msgid (env : BuildEnv) (msg : Message) (lu : String) :
    (applyOps msg.Headers (headerOps env msg lu)).lookup "Message-ID"
      = if (msg.Headers.lookup "Message-ID").isSome
        then msg.Headers.lookup "Message-ID"
        else some (genMessageID msg.From.Mail env.randB env.nowNanos) := by
  unfold headerOps
  rw [applyOps_append, applyOps_append,
    lookup_applyOps_not_mem _ (bodyCase_keys_ne_msgid env msg)]
  by_cases hsome : (msg.Headers.lookup "Message-ID").isSome
  · rw [if_pos hsome]
    unfold msgIdOps
    rw [if_pos hsome,
      show applyOps (applyOps msg.Headers (preHeaderOps env msg lu)) [] =
        applyOps msg.Headers (preHeaderOps env msg lu) from rfl,
      lookup_applyOps_not_mem _ (preHeaderOps_keys env msg lu)]
  · rw [if_neg hsome]
    unfold msgIdOps
    rw [if_neg hsome]
    unfold setOp
    rw [if_neg (genMessageID_ne_empty _ _ _)]
    rw [show applyOps (applyOps msg.Headers (preHeaderOps env msg lu))
        [("Message-ID", genMessageID msg.From.Mail env.randB env.nowNanos)]
      = mapSet (applyOps msg.Headers (preHeaderOps env msg lu)) "Message-ID"
          (genMessageID msg.From.Mail env.randB env.nowNanos) from rfl]
    exact lookup_mapSet_self _ _ _

/-- C8 as amended: the existing-key check is the case-sensitive Go
map lookup of the exact key `"Message-ID"`.  When that key is present
in the caller's headers (in that exact casing) no Message-ID is
generated and the supplied value survives; when it is absent — even
if a Message-ID is supplied under a different casing — a generated
`<timestampHex randomHex @ senderDomain>` value is set, built from
the nanosecond timestamp, the 12 random bytes, and the sender
mailbox's domain after its last `@`. -/
theorem c8_message_id (env : BuildEnv) (msg : Message) (lu : String)
    (hval : msg.Validate = none) (_hlen : env.randB.length = 12) :
    ∃ out, BuildMIME env msg lu = Except.ok out ∧
      (∀ v, msg.Headers.lookup "Message-ID" = some v →
        out.headers.lookup "Message-ID" = some v) ∧
      (msg.Headers.lookup "Message-ID" = none →
        out.headers.lookup "Message-ID"
          = some (genMessageID msg.From.Mail env.randB env.nowNanos)) ∧
      genMessageID msg.From.Mail env.randB env.nowNanos
        = "<" ++ String.mk (hexNatList env.nowNanos) ++ String.mk (hexBytes env.randB)
          ++ "@" ++ hostOf msg.From.Mail ++ ">" := by
  refine ⟨_, buildMIME_ok env msg lu hval, ?_, ?_, rfl⟩
  · intro v hv
    rw [show (⟨applyOps msg.Headers (headerOps env msg lu), (bodyCase env msg).2⟩
        : BuildOut).headers = applyOps msg.Headers (headerOps env msg lu) from rfl,
      lookup_msgid, if_pos (by rw [hv]; rfl), hv]
  · intro hv
    rw [show (⟨applyOps msg.Headers (headerOps env msg lu), (bodyCase env msg).2⟩
        : BuildOut).headers = applyOps msg.Headers (headerOps env msg lu) from rfl,
      lookup_msgid, if_neg (by rw [hv]; simp)]

/-- Witness for C8 (amended) on a message without a Message-ID. -/
theorem c8_message_id_witness :
    ∃ out, BuildMIME ⟨fun a => a.Mail, id, "D", 1, List.replicate 12 0, "MB", "AB"⟩
      ⟨⟨"", "a@x"⟩, [⟨"", "b@y"⟩], [], [], "", [104], [], [], [], ""⟩ "" = Except.ok out ∧
      out.headers.lookup "Message-ID" = some "<1000000000000000000000000@x>" := by
  obtain ⟨out, h1, _, h3, _⟩ := c8_message_id
    ⟨fun a => a.Mail, id, "D", 1, List.replicate 12 0, "MB", "AB"⟩
    ⟨⟨"", "a@x"⟩, [⟨"", "b@y"⟩], [], [], "", [104], [], [], [], ""⟩ ""
    (by decide) (by decide)
  exact ⟨out, h1, by rw [h3 (by decide)]; decide⟩

/-- C8 counterexample: a Message-ID supplied under the key casing
`"message-id"` does not suppress generation — the build still sets a
fresh `Message-ID`, so the claim as stated (case-insensitive
existing-key check) fails on the code. -/
theorem c8_counterexample :
    (BuildMIME ⟨fun a => a.Mail, id, "D", 1, List.replicate 12 0, "MB", "AB"⟩
        ⟨⟨"", "a@x"⟩, [⟨"", "b@y"⟩], [], [], "", [104], [], [],
          [("message-id", "<keep@ex>")], ""⟩ "").map
      (fun out => (out.headers.lookup "Message-ID", out.headers.lookup "message-id"))
      = Except.ok (some "<1000000000000000000000000@x>", some "<keep@ex>") ∧
    some "<1000000000000000000000000@x>" ≠ some "<keep@ex>" := by
  constructor
  · rfl
  · decide

/-! ### C1: body shape selection -/

theorem lookup_ct1 (m : HeaderMap) (pre : List (String × String)) (ctv : String) :
    (applyOps m (pre ++ [("Content-Type", ctv)])).lookup "Content-Type" = some ctv := by
  rw [applyOps_append]
  exact lookup_mapSet_self _ _ _

theorem lookup_ct2 (m : HeaderMap) (pre : List (String × String)) (ctv ctev : String) :
    (applyOps m (pre ++ [("Content-Type", ctv),
        ("Content-Transfer-Encoding", ctev)])).lookup "Content-Type" = some ctv ∧
    (applyOps m (pre ++ [("Content-Type", ctv),
        ("Content-Transfer-Encoding", ctev)])).lookup "Content-Transfer-Encoding"
      = some ctev := by
  rw [applyOps_append]
  constructor
  · rw [show applyOps (applyOps m pre)
        [("Content-Type", ctv), ("Content-Transfer-Encoding", ctev)]
        = mapSet (mapSet (applyOps m pre) "Content-Type" ctv)
            "Content-Transfer-Encoding" ctev from rfl,
      lookup_mapSet_ne _ _ (by decide)]
    exact lookup_mapSet_self _ _ _
  · exact lookup_mapSet_self _ _ _

theorem headerOps_split (env : BuildEnv) (msg : Message) (lu : String) :
    headerOps env msg lu
      = (preHeaderOps env msg lu ++ msgIdOps env msg) ++ (bodyCase env msg).1 := rfl

/-- C1: for every valid message the body shape follows the source
priority order — attachments force `multipart/mixed` with one part
per attachment plus a nested `multipart/alternative` part exactly
when a plain and/or HTML body exists; otherwise plain+HTML gives
`multipart/alternative` with exactly two parts; otherwise HTML alone
gives a single `text/html` part; otherwise a single `text/plain`
part — and every text part carries charset UTF-8 with
quoted-printable transfer encoding. -/
theorem c1_body_shape (env : BuildEnv) (msg : Message) (lu : String)
    (hval : msg.Validate = none) :
    ∃ out : BuildOut, BuildMIME env msg lu = Except.ok out ∧
      (msg.Attach ≠ [] →
        out.headers.lookup "Content-Type"
            = some ("multipart/mixed; boundary=\"" ++ env.mixedBoundary ++ "\"") ∧
        out.body = BodyStruct.multiPart env.mixedBoundary
          ((if msg.Plain ≠ [] ∨ msg.HTML ≠ [] then [mixedAltPart env msg] else [])
            ++ msg.Attach.map (writeAttachmentSpec env.qenc))) ∧
      (msg.Attach = [] → msg.Plain ≠ [] → msg.HTML ≠ [] →
        out.headers.lookup "Content-Type"
            = some ("multipart/alternative; boundary=\"" ++ env.altBoundary ++ "\"") ∧
        out.body = BodyStruct.multiPart env.altBoundary
          [textPartSpec msg.Plain, htmlPartSpec msg.HTML] ∧
        [textPartSpec msg.Plain, htmlPartSpec msg.HTML].length = 2) ∧
      (msg.Attach = [] → msg.Plain = [] → msg.HTML ≠ [] →
        out.headers.lookup "Content-Type" = some "text/html; charset=\"UTF-8\"" ∧
        out.headers.lookup "Content-Transfer-Encoding" = some "quoted-printable" ∧
        out.body = BodyStruct.singlePart (writeQuotedPrintable msg.HTML)) ∧
      (msg.Attach = [] → msg.HTML = [] →
        out.headers.lookup "Content-Type" = some "text/plain; charset=\"UTF-8\"" ∧
        out.headers.lookup "Content-Transfer-Encoding" = some "quoted-printable" ∧
        out.body = BodyStruct.singlePart (writeQuotedPrintable msg.Plain)) ∧
      (∀ bdy : List Nat,
        ("Content-Type", "text/plain; charset=\"UTF-8\"") ∈ (textPartSpec bdy).headers ∧
        ("Content-Transfer-Encoding", "quoted-printable") ∈ (textPartSpec bdy).headers ∧
        ("Content-Type", "text/html; charset=\"UTF-8\"") ∈ (htmlPartSpec bdy).headers ∧
        ("Content-Transfer-Encoding", "quoted-printable") ∈ (htmlPartSpec bdy).headers) := by
  refine ⟨_, buildMIME_ok env msg lu hval, ?_, ?_, ?_, ?_, ?_⟩
  · intro ha
    have hbc : bodyCase env msg
        = ([("Content-Type", "multipart/mixed; boundary=\"" ++ env.mixedBoundary ++ "\"")],
           BodyStruct.multiPart env.mixedBoundary
             ((if msg.Plain ≠ [] ∨ msg.HTML ≠ [] then [mixedAltPart env msg] else [])
               ++ msg.Attach.map (writeAttachmentSpec env.qenc))) := by
      unfold bodyCase
      rw [if_pos ha]
    constructor
    · show (applyOps msg.Headers (headerOps env msg lu)).lookup "Content-Type" = _
      rw [headerOps_split, hbc]
      exact lookup_ct1 _ _ _
    · show (bodyCase env msg).2 = _
      rw [hbc]
  · intro ha hp hh
    have hbc : bodyCase env msg
        = ([("Content-Type",
             "multipart/alternative; boundary=\"" ++ env.altBoundary ++ "\"")],
           BodyStruct.multiPart env.altBoundary
             [textPartSpec msg.Plain, htmlPartSpec msg.HTML]) := by
      unfold bodyCase
      rw [if_neg (fun hc => hc ha), if_pos ⟨hp, hh⟩]
    refine ⟨?_, ?_, rfl⟩
    · show (applyOps msg.Headers (headerOps env msg lu)).lookup "Content-Type" = _
      rw [headerOps_split, hbc]
      exact lookup_ct1 _ _ _
    · show (bodyCase env msg).2 = _
      rw [hbc]
  · intro ha hp hh
    have hbc : bodyCase env msg
        = ([("Content-Type", "text/html; charset=\"UTF-8\""),
            ("Content-Transfer-Encoding", "quoted-printable")],
           BodyStruct.singlePart (writeQuotedPrintable msg.HTML)) := by
      unfold bodyCase
      rw [if_neg (fun hc => hc ha), if_neg (fun hc => hc.1 hp), if_pos hh]
    refine ⟨?_, ?_, ?_⟩
    · show (applyOps msg.Headers (headerOps env msg lu)).lookup "Content-Type" = _
      rw [headerOps_split, hbc]
      exact (lookup_ct2 _ _ _ _).1
    · show (applyOps msg.Headers (headerOps env msg lu)).lookup
        "Content-Transfer-Encoding" = _
      rw [headerOps_split, hbc]
      exact (lookup_ct2 _ _ _ _).2
    · show (bodyCase env msg).2 = _
      rw [hbc]
  · intro ha hh
    have hbc : bodyCase env msg
        = ([("Content-Type", "text/plain; charset=\"UTF-8\""),
            ("Content-Transfer-Encoding", "quoted-printable")],
           BodyStruct.singlePart (writeQuotedPrintable msg.Plain)) := by
      unfold bodyCase
      rw [if_neg (fun hc => hc ha), if_neg (fun hc => hc.2 hh), if_neg (fun hc => hc hh)]
    refine ⟨?_, ?_, ?_⟩
    · show (applyOps msg.Headers (headerOps env msg lu)).lookup "Content-Type" = _
      rw [headerOps_split, hbc]
      exact (lookup_ct2 _ _ _ _).1
    · show (applyOps msg.Headers (headerOps env msg lu)).lookup
        "Content-Transfer-Encoding" = _
      rw [headerOps_split, hbc]
      exact (lookup_ct2 _ _ _ _).2
    · show (bodyCase env msg).2 = _
      rw [hbc]
  · intro bdy
    refine ⟨?_, ?_, ?_, ?_⟩ <;> simp [textPartSpec, htmlPartSpec]

/-- Witness for C1: a plain-only message takes the `text/plain` case,
and a plain+HTML message takes the `multipart/alternative` case. -/
theorem c1_body_shape_witness :
    (∃ out : BuildOut, BuildMIME ⟨fun a => a.Mail, id, "D", 1, [], "MB", "AB"⟩
      ⟨⟨"", "a@x"⟩, [⟨"", "b@y"⟩], [], [], "", [104], [], [], [], ""⟩ "" = Except.ok out ∧
      out.headers.lookup "Content-Type" = some "text/plain; charset=\"UTF-8\"") ∧
    (∃ out : BuildOut, BuildMIME ⟨fun a => a.Mail, id, "D", 1, [], "MB", "AB"⟩
      ⟨⟨"", "a@x"⟩, [⟨"", "b@y"⟩], [], [], "", [104], [60], [], [], ""⟩ "" = Except.ok out ∧
      out.body = BodyStruct.multiPart "AB" [textPartSpec [104], htmlPartSpec [60]]) := by
  constructor
  · obtain ⟨out, h1, _, _, _, h4, _⟩ := c1_body_shape
      ⟨fun a => a.Mail, id, "D", 1, [], "MB", "AB"⟩
      ⟨⟨"", "a@x"⟩, [⟨"", "b@y"⟩], [], [], "", [104], [], [], [], ""⟩ "" (by decide)
    exact ⟨out, h1, (h4 rfl rfl).1⟩
  · obtain ⟨out, h1, _, h3, _, _, _⟩ := c1_body_shape
      ⟨fun a => a.Mail, id, "D", 1, [], "MB", "AB"⟩
      ⟨⟨"", "a@x"⟩, [⟨"", "b@y"⟩], [], [], "", [104], [60], [], [], ""⟩ "" (by decide)
    exact ⟨out, h1, (h3 rfl (by decide) (by decide)).2.1⟩

/-! ### C2: quoted-printable body round-trip (corrected) -/

theorem qpDecode_nil : qpDecode [] = [] := by simp [qpDecode]

theorem qpDecode_soft (r : List Nat) : qpDecode (61 :: 13 :: 10 :: r) = qpDecode r := by
  simp [qpDecode]

theorem qpDecode_lit (c : Nat) (r : List Nat) (h : c ≠ 61) :
    qpDecode (c :: r) = c :: qpDecode r := by
  rcases r with _ | ⟨c1, r⟩
  · simp [qpDecode]
  rcases r with _ | ⟨c2, r⟩
  · simp [qpDecode]
  · simp [qpDecode, h]

theorem qpDecode_esc (c1 c2 : Nat) (r : List Nat) (a b : Nat)
    (h1 : hexVal c1 = some a) (h2 : hexVal c2 = some b) (hne : ¬(c1 = 13 ∧ c2 = 10)) :
    qpDecode (61 :: c1 :: c2 :: r) = (16 * a + b) :: qpDecode r := by
  simp [qpDecode, hne, h1, h2]

theorem hexVal_qpHexDigit {n : Nat} (h : n < 16) : hexVal (qpHexDigit n) = some n := by
  by_cases h10 : n < 10
  · rw [qpHexDigit, if_pos h10, hexVal, if_pos (by omega)]
    congr 1
    omega
  · rw [qpHexDigit, if_neg h10, hexVal, if_neg (by omega), if_pos (by omega)]
    congr 1
    omega

theorem qpHexDigit_ne_13 (n : Nat) : qpHexDigit n ≠ 13 := by
  unfold qpHexDigit
  split <;> omega

theorem qpCanonCore_id {b : List Nat} (h : ∀ c ∈ b, c ≠ 13 ∧ c ≠ 10) :
    qpCanonCore b = b := by
  induction b with
  | nil => rfl
  | cons c rest ih =>
    have hc := h c (List.mem_cons_self c rest)
    simp only [qpCanonCore, if_neg hc.1, if_neg hc.2]
    rw [ih (fun x hx => h x (List.mem_cons_of_mem _ hx))]

/-- The decoder inverts the encoder up to the encoder's line-ending
canonicalization (CR dropped, LF made CRLF) and its final CRLF, at
any starting column. -/
theorem qpDecode_writeQPAux (b : List Nat) (hB : ∀ c ∈ b, c < 256) :
    ∀ col, qpDecode (writeQPAux b col) = qpCanonCore b ++ [13, 10] := by
  induction b with
  | nil =>
    intro col
    simp only [writeQPAux, qpCanonCore, List.nil_append]
    rw [qpDecode_lit _ _ (by decide), qpDecode_lit _ _ (by decide), qpDecode_nil]
  | cons c rest ih =>
    intro col
    have hc : c < 256 := hB c (List.mem_cons_self c rest)
    have hrest : ∀ x ∈ rest, x < 256 := fun x hx => hB x (List.mem_cons_of_mem _ hx)
    by_cases h13 : c = 13
    · simp only [writeQPAux, qpCanonCore, if_pos h13]
      exact ih hrest col
    by_cases h10 : c = 10
    · simp only [writeQPAux, qpCanonCore, if_neg h13, if_pos h10]
      rw [qpDecode_lit _ _ (by decide), qpDecode_lit _ _ (by decide), ih hrest 0]
      rfl
    by_cases hesc : c = 61 ∨ c < 32 ∨ 126 < c
    · have hdiv : c / 16 < 16 := by omega
      have hmod : c % 16 < 16 := by omega
      have hco : 16 * (c / 16) + c % 16 = c := by omega
      have hne13 : ¬(qpHexDigit (c / 16) = 13 ∧ qpHexDigit (c % 16) = 10) :=
        fun hx => qpHexDigit_ne_13 _ hx.1
      simp only [writeQPAux, qpCanonCore, if_neg h13, if_neg h10, if_pos hesc,
        List.cons_append, List.nil_append]
      split
      · rw [qpDecode_soft, qpDecode_esc _ _ _ _ _ (hexVal_qpHexDigit hdiv)
            (hexVal_qpHexDigit hmod) hne13, ih hrest _, hco]
      · rw [qpDecode_esc _ _ _ _ _ (hexVal_qpHexDigit hdiv)
            (hexVal_qpHexDigit hmod) hne13, ih hrest _, hco]
    · have h61 : c ≠ 61 := fun hx => hesc (Or.inl hx)
      simp only [writeQPAux, qpCanonCore, if_neg h13, if_neg h10, if_neg hesc,
        List.cons_append, List.nil_append]
      split
      · rw [qpDecode_soft, qpDecode_lit _ _ h61, ih hrest _]
      · rw [qpDecode_lit _ _ h61, ih hrest _]

/-- C2 as amended: for a message with only a plain body, the
content-type is exactly `text/plain; charset="UTF-8"` and decoding
the built body as quoted-printable yields the original bytes with CR
removed, LF expanded to CRLF, and one trailing CRLF appended — in
particular, for plain bodies free of CR and LF, exactly the original
bytes followed by CRLF (so the round-trip as literally claimed fails
by that trailing CRLF; see the counterexample). -/
theorem c2_plain_roundtrip (env : BuildEnv) (msg : Message) (lu : String)
    (hval : msg.Validate = none) (hAtt : msg.Attach = []) (hHTML : msg.HTML = [])
    (hBytes : ∀ c ∈ msg.Plain, c < 256) :
    ∃ out : BuildOut, BuildMIME env msg lu = Except.ok out ∧
      out.headers.lookup "Content-Type" = some "text/plain; charset=\"UTF-8\"" ∧
      out.body.bytes = writeQuotedPrintable msg.Plain ∧
      qpDecode out.body.bytes = qpCanonCore msg.Plain ++ [13, 10] ∧
      ((∀ c ∈ msg.Plain, c ≠ 13 ∧ c ≠ 10) →
        qpDecode out.body.bytes = msg.Plain ++ [13, 10]) := by
  have hbc : bodyCase env msg
      = ([("Content-Type", "text/plain; charset=\"UTF-8\""),
          ("Content-Transfer-Encoding", "quoted-printable")],
         BodyStruct.singlePart (writeQuotedPrintable msg.Plain)) := by
    unfold bodyCase
    rw [if_neg (fun hc => hc hAtt), if_neg (fun hc => hc.2 hHTML),
      if_neg (fun hc => hc hHTML)]
  refine ⟨_, buildMIME_ok env msg lu hval, ?_, ?_, ?_, ?_⟩
  · show (applyOps msg.Headers (headerOps env msg lu)).lookup "Content-Type" = _
    rw [headerOps_split, hbc]
    exact (lookup_ct2 _ _ _ _).1
  · show (bodyCase env msg).2.bytes = _
    rw [hbc]
    rfl
  · show qpDecode (bodyCase env msg).2.bytes = _
    rw [hbc]
    exact qpDecode_writeQPAux msg.Plain hBytes 0
  · intro hno
    show qpDecode (bodyCase env msg).2.bytes = _
    rw [hbc, show (BodyStruct.singlePart (writeQuotedPrintable msg.Plain)).bytes
        = writeQuotedPrintable msg.Plain from rfl]
    unfold writeQuotedPrintable
    rw [qpDecode_writeQPAux msg.Plain hBytes 0, qpCanonCore_id hno]

/-- Witness for C2 (amended) on the plain body "hi". -/
theorem c2_plain_roundtrip_witness :
    ∃ out : BuildOut, BuildMIME ⟨fun a => a.Mail, id, "D", 1, [], "MB", "AB"⟩
      ⟨⟨"", "a@x"⟩, [⟨"", "b@y"⟩], [], [], "", [104, 105], [], [], [], ""⟩ ""
        = Except.ok out ∧
      qpDecode out.body.bytes = [104, 105] ++ [13, 10] := by
  obtain ⟨out, h1, _, _, _, h5⟩ := c2_plain_roundtrip
    ⟨fun a => a.Mail, id, "D", 1, [], "MB", "AB"⟩
    ⟨⟨"", "a@x"⟩, [⟨"", "b@y"⟩], [], [], "", [104, 105], [], [], [], ""⟩ ""
    (by decide) rfl rfl (by decide)
  exact ⟨out, h1, h5 (by decide)⟩

/-- C2 counterexample: for the plain body "hi" the built body decodes
to "hi\r\n", not to the original two bytes — the decoded body section
is not byte-identical to the plain body, refuting the claim as
stated. -/
theorem c2_counterexample :
    ∃ out : BuildOut, BuildMIME ⟨fun a => a.Mail, id, "D", 1, [], "MB", "AB"⟩
      ⟨⟨"", "a@x"⟩, [⟨"", "b@y"⟩], [], [], "", [104, 105], [], [], [], ""⟩ ""
        = Except.ok out ∧
      out.body.bytes = [104, 105, 13, 10] ∧
      qpDecode out.body.bytes = [104, 105, 13, 10] ∧
      qpDecode out.body.bytes
        ≠ (⟨⟨"", "a@x"⟩, [⟨"", "b@y"⟩], [], [], "", [104, 105], [], [], [], ""⟩
            : Message).Plain := by
  have hd : qpDecode [104, 105, 13, 10] = [104, 105, 13, 10] := by
    rw [qpDecode_lit _ _ (by decide), qpDecode_lit _ _ (by decide),
      qpDecode_lit _ _ (by decide), qpDecode_lit _ _ (by decide), qpDecode_nil]
  refine ⟨_, rfl, rfl, hd, ?_⟩
  show qpDecode [104, 105, 13, 10] ≠ [104, 105]
  rw [hd]
  decide

/-! ### C3: DKIM signature -/

theorem joinSep_mem_infix {x : String} {l : List String} (sep : String) (h : x ∈ l) :
    x.data <:+: (joinSep sep l).data := by
  induction l with
  | nil => simp at h
  | cons y rest ih =>
    rcases rest with _ | ⟨z, rest2⟩
    · simp at h
      subst h
      exact ⟨[], [], by simp [joinSep]⟩
    · rcases List.mem_cons.mp h with h | h
      · subst h
        exact ⟨[], sep.data ++ (joinSep sep (z :: rest2)).data,
          by simp [joinSep, String.data_append]⟩
      · have h2 := infix_append_left ((y ++ sep).data) (ih h)
        rw [show (joinSep sep (y :: z :: rest2)).data
            = (y ++ sep).data ++ (joinSep sep (z :: rest2)).data from by
          simp [joinSep, String.data_append]]
        exact h2

/-- C3: with a complete configuration and a parseable key, the DKIM
signature value is the sorted `tag=value` join with `b=` appended
last; its tag set is exactly the eight written fields sorted
alphabetically; `d=` carries the domain and `s=` the selector (both
also as substrings of the value); the `bh=` tag is the base64 SHA-256
of the relaxed-canonicalized body; and canonicalizing an empty body
yields exactly the two bytes CRLF. -/
theorem c3_dkim {K : Type} (parseKey : List Nat → Except String K)
    (sha256 : List Nat → List Nat) (rsaSign : K → List Nat → Except String (List Nat))
    (now : Nat) (headers : HeaderMap) (body : List Nat) (cfg : DKIMConfig)
    (key : K) (sig : List Nat)
    (hd : cfg.Domain ≠ "") (hs : cfg.Selector ≠ "") (hk : cfg.KeyPEM ≠ [])
    (hparse : parseKey cfg.KeyPEM = Except.ok key)
    (hsig : rsaSign key (sha256 (strBytes (dkimToSign sha256 now headers body cfg)))
      = Except.ok sig) :
    BuildDKIMSignature parseKey sha256 rsaSign now headers body cfg
        = Except.ok (dkimTagStr sha256 now headers body cfg ++ "; b=" ++ b64String sig) ∧
    (dkimFieldList sha256 now headers body cfg).map Prod.fst
        = ["v", "a", "c", "d", "s", "t", "bh", "h"] ∧
    sortStrings ["v", "a", "c", "d", "s", "t", "bh", "h"]
        = ["a", "bh", "c", "d", "h", "s", "t", "v"] ∧
    strChainSorted ["a", "bh", "c", "d", "h", "s", "t", "v"] = true ∧
    dkimTagStr sha256 now headers body cfg
        = joinSep "; " (["a", "bh", "c", "d", "h", "s", "t", "v"].map fun k =>
            k ++ "=" ++ (((dkimFieldList sha256 now headers body cfg).lookup k).getD "")) ∧
    (dkimFieldList sha256 now headers body cfg).lookup "d" = some cfg.Domain ∧
    (dkimFieldList sha256 now headers body cfg).lookup "s" = some cfg.Selector ∧
    (dkimFieldList sha256 now headers body cfg).lookup "bh"
        = some (b64String (sha256 (dkimCanonicalizeBodyRelaxed body))) ∧
    ("d=" ++ cfg.Domain).data
        <:+: (dkimTagStr sha256 now headers body cfg ++ "; b=" ++ b64String sig).data ∧
    ("s=" ++ cfg.Selector).data
        <:+: (dkimTagStr sha256 now headers body cfg ++ "; b=" ++ b64String sig).data ∧
    dkimCanonicalizeBodyRelaxed [] = [13, 10] := by
  have h2 : (dkimFieldList sha256 now headers body cfg).map Prod.fst
      = ["v", "a", "c", "d", "s", "t", "bh", "h"] := by
    simp [dkimFieldList]
  have h3 : sortStrings ["v", "a", "c", "d", "s", "t", "bh", "h"]
      = ["a", "bh", "c", "d", "h", "s", "t", "v"] := by decide
  have h5 : dkimTagStr sha256 now headers body cfg
      = joinSep "; " (["a", "bh", "c", "d", "h", "s", "t", "v"].map fun k =>
          k ++ "=" ++ (((dkimFieldList sha256 now headers body cfg).lookup k).getD "")) := by
    simp only [dkimTagStr]
    rw [h2, h3]
  have h6 : (dkimFieldList sha256 now headers body cfg).lookup "d" = some cfg.Domain := rfl
  have h7 : (dkimFieldList sha256 now headers body cfg).lookup "s" = some cfg.Selector := rfl
  have h8 : (dkimFieldList sha256 now headers body cfg).lookup "bh"
      = some (b64String (sha256 (dkimCanonicalizeBodyRelaxed body))) := rfl
  have hinfix : ∀ k v : String,
      (dkimFieldList sha256 now headers body cfg).lookup k = some v →
      k ∈ ["a", "bh", "c", "d", "h", "s", "t", "v"] →
      (k ++ "=" ++ v).data
        <:+: (dkimTagStr sha256 now headers body cfg ++ "; b=" ++ b64String sig).data := by
    intro k v hkv hkmem
    have hmem : (k ++ "=" ++ (((dkimFieldList sha256 now headers body cfg).lookup k).getD ""))
        ∈ (["a", "bh", "c", "d", "h", "s", "t", "v"].map fun k2 =>
            k2 ++ "=" ++ (((dkimFieldList sha256 now headers body cfg).lookup k2).getD "")) :=
      List.mem_map.mpr ⟨k, hkmem, rfl⟩
    have hinf := joinSep_mem_infix "; " hmem
    rw [← h5, hkv] at hinf
    rw [String.data_append, String.data_append]
    exact infix_append_right _ (infix_append_right _ hinf)
  refine ⟨?_, h2, h3, by decide, h5, h6, h7, h8, ?_, ?_, by rfl⟩
  · unfold BuildDKIMSignature
    rw [if_neg (by push_neg; exact ⟨hd, hs, hk⟩), hparse]
    dsimp only
    rw [hsig]
  · exact hinfix "d" cfg.Domain h6 (by decide)
  · exact hinfix "s" cfg.Selector h7 (by decide)

/-- Witness for C3 with concrete abstracted crypto primitives. -/
theorem c3_dkim_witness :
    BuildDKIMSignature (K := Nat) (fun _ => Except.ok 0) (fun _ => [1])
        (fun _ _ => Except.ok [2]) 5 [] [] ⟨"example.com", "sel", [65], []⟩
      = Except.ok (dkimTagStr (fun _ => [1]) 5 [] [] ⟨"example.com", "sel", [65], []⟩
          ++ "; b=" ++ b64String [2]) ∧
    dkimCanonicalizeBodyRelaxed [] = [13, 10] := by
  have h := c3_dkim (K := Nat) (fun _ => Except.ok 0) (fun _ => [1])
    (fun _ _ => Except.ok [2]) 5 [] [] ⟨"example.com", "sel", [65], []⟩ 0 [2]
    (by decide) (by decide) (by decide) rfl rfl
  exact ⟨h.1, h.2.2.2.2.2.2.2.2.2.2⟩

end EmailVerify
